import Mathlib

set_option maxRecDepth 40000

/-!
Shallow embedding of the radar-fetcher program (src/main.rs).

The program has two stages: link extraction from an HTML index page
(fetch_download_links, resolve_url) and bounded-concurrency download
execution (download_files, download_file, DownloadProgress).

External libraries are abstracted as oracles:
* the parsed HTML document is a function from a CSS selector string to the
  list of elements it matches (each element carries an optional href
  attribute); a selector whose parse fails is mapped to none, matching the
  if-let of the source on Selector::parse;
* URL joining (Url::parse / Url::join of the url crate, used by resolve_url)
  is a function from an href to Except Unit String, the base URL being the
  one fixed radar_url of the extraction pass;
* the network and filesystem effects of one download (reqwest send, file
  create, body read, file write) are an oracle record of Except results.

Machine strings are Lean String on the extraction side; on the download
side, where the byte-level Path::file_name computation matters, they are
List Char.  The raw HTML text is a list of bytes (List Nat), because the
debug preview slices it at a byte offset.
-/

/-- Membership of a pattern as a contiguous run inside a character list;
embeds Rust str::contains and str::starts_with on hrefs. -/
def startsWithList : List Char → List Char → Bool
  | _, [] => true
  | [], _ :: _ => false
  | a :: as, b :: bs => a == b && startsWithList as bs

/-- Substring test: the needle occurs contiguously somewhere in the haystack. -/
def containsSub (needle : List Char) : List Char → Bool
  | [] => needle.isEmpty
  | c :: rest => startsWithList (c :: rest) needle || containsSub needle rest

/-- Rust str::contains on Lean strings. -/
def strContains (s pat : String) : Bool := containsSub pat.toList s.toList

/-- The content-likelihood filter on hrefs, main.rs lines 92-97: the href
must contain one of the literal markers, or start with http and contain
the word download. -/
def isDataLink (href : String) : Bool :=
  strContains href ".gz" || strContains href ".tar" || strContains href ".bz2" ||
  strContains href "V06" || strContains href "AAL2" ||
  (startsWithList href.toList "http".toList && strContains href "download")

/-- The fixed priority-ordered selector list of fetch_download_links,
main.rs lines 70-82. -/
def selectors : List String :=
  ["div.bdpLink a", "a[href*=\x27.gz\x27]", "a[href*=\x27.tar\x27]",
   "a[href*=\x27.bz2\x27]", "a[href*=\x27download\x27]", "a[href*=\x27V06\x27]",
   "a[href*=\x27AAL2\x27]", "table a", ".download a", ".file-link a", "a"]

/-- The inner element loop of fetch_download_links (main.rs lines 89-105)
for one selector: the optional href of each element is filtered by isDataLink,
resolved (the question-mark operator turns a resolution failure into an
early error return of the whole function), deduplicated against the links
accumulated so far, and pushed; found counts the pushes of this selector. -/
def processElements (resolve : String → Except Unit String) :
    List (Option String) → List String → Nat → Except Unit (List String × Nat)
  | [], links, found => .ok (links, found)
  | none :: rest, links, found => processElements resolve rest links found
  | some href :: rest, links, found =>
    if isDataLink href then
      match resolve href with
      | .error e => .error e
      | .ok absUrl =>
        if links.contains absUrl then processElements resolve rest links found
        else processElements resolve rest (links ++ [absUrl]) (found + 1)
    else processElements resolve rest links found

/-- The selector loop of fetch_download_links (main.rs lines 86-111): a
selector that fails to parse (doc gives none) is skipped; the first
selector whose pass pushes at least one link breaks the loop; the links
vector is shared across selectors. -/
def fetchLoop (doc : String → Option (List (Option String)))
    (resolve : String → Except Unit String) :
    List String → List String → Except Unit (List String)
  | [], links => .ok links
  | sel :: rest, links =>
    match doc sel with
    | none => fetchLoop doc resolve rest links
    | some elems =>
      match processElements resolve elems links 0 with
      | .error e => .error e
      | .ok (links2, found) =>
        if 0 < found then .ok links2 else fetchLoop doc resolve rest links2

/-- Rust str::is_char_boundary on a UTF-8 byte list: position 0, the end
position, and any position holding a byte that is not a continuation byte
(top two bits 10) are boundaries. -/
def isCharBoundary (bytes : List Nat) (i : Nat) : Bool :=
  i == 0 || i == bytes.length ||
    (match bytes.get? i with
     | some b => !(b / 64 == 2)
     | none => false)

/-- Outcome of one extraction pass: an error return (the question-mark
operator fired), a byte-slice panic in the empty-result debug preview, or
the final link list. -/
inductive FetchResult where
  | errored : FetchResult
  | panicked : FetchResult
  | links : List String → FetchResult
deriving DecidableEq

/-- fetch_download_links after the page body has been fetched (main.rs
lines 67-135): run the selector loop; on an empty result the debug block
slices the raw HTML at byte offset min 1000 (html.len()), which panics
when that offset is not a character boundary; otherwise the link list is
returned. -/
def fetch_download_links (doc : String → Option (List (Option String)))
    (resolve : String → Except Unit String) (htmlBytes : List Nat) : FetchResult :=
  match fetchLoop doc resolve selectors [] with
  | .error _ => .errored
  | .ok ls =>
    if ls.isEmpty then
      if isCharBoundary htmlBytes (min 1000 htmlBytes.length) then .links ls
      else .panicked
    else .links ls

/-- The stream of successfully resolved surviving candidates of one
selector, in document order and without deduplication; an error if some
surviving candidate fails to resolve.  Reference stream used to state the
deduplication property. -/
def survivorsResolved (resolve : String → Except Unit String) :
    List (Option String) → Except Unit (List String)
  | [] => .ok []
  | none :: rest => survivorsResolved resolve rest
  | some href :: rest =>
    if isDataLink href then
      match resolve href with
      | .error e => .error e
      | .ok absUrl =>
        match survivorsResolved resolve rest with
        | .error e => .error e
        | .ok urls => .ok (absUrl :: urls)
    else survivorsResolved resolve rest

/-- Deduplication exactly as the spec words it: fold the resolved URLs in
order onto an accumulator, dropping a URL that is already present by exact
string equality, first occurrence wins, order preserved. -/
def dedupAppend (acc : List String) (urls : List String) : List String :=
  urls.foldl (fun a u => if a.contains u then a else a ++ [u]) acc

/-- Terminal outcome of the pipeline driver (main, lines 243-256). -/
inductive RunOutcome where
  | fatalError : RunOutcome
  | crashed : RunOutcome
  | emptyNoLinks : RunOutcome
  | finished : Nat → RunOutcome
deriving DecidableEq

/-- The driver logic around the two stages (main.rs lines 243-254): a
failed extraction propagates as a fatal error, an empty link list returns
Ok early with the no-links message, otherwise the run completes reporting
the number of downloaded files. -/
def main_drive (fr : FetchResult) (downloaded : List (List Char)) : RunOutcome :=
  match fr with
  | FetchResult.errored => RunOutcome.fatalError
  | FetchResult.panicked => RunOutcome.crashed
  | FetchResult.links [] => RunOutcome.emptyNoLinks
  | FetchResult.links (_ :: _) => RunOutcome.finished downloaded.length

/-- Split a character list on every slash, keeping empty pieces, as Unix
path component splitting does before normalization. -/
def splitSlash : List Char → List (List Char)
  | [] => [[]]
  | c :: rest =>
    if c = '/' then [] :: splitSlash rest
    else
      match splitSlash rest with
      | [] => [[c]]
      | p :: ps => (c :: p) :: ps

/-- Normal components of a Unix path: slash-separated pieces with empty
pieces and single dots dropped. -/
def pathComponents (s : List Char) : List (List Char) :=
  (splitSlash s).filter (fun p => !p.isEmpty && p != ['.'])

/-- Rust Path::file_name applied to the URL string (main.rs lines
155-158): the last normal component, or none when there is no component
or the path terminates in a double dot. -/
def rustFileName (s : List Char) : Option (List Char) :=
  match (pathComponents s).getLast? with
  | none => none
  | some lastPiece => if lastPiece = ['.', '.'] then none else some lastPiece

/-- The fixed placeholder filename of main.rs line 158. -/
def unknownFile : List Char := "unknown_file".toList

/-- The output filename computation of download_file: Path file_name of
the whole URL string with the placeholder fallback. -/
def downloadFileName (url : List Char) : List Char := (rustFileName url).getD unknownFile

/-- Follows the spec words of section 4.2: the URL final path segment.
Query and fragment are not part of the path; the path starts at the first
slash after the scheme-and-host part introduced by the double slash; the
final segment is what follows the last slash of the path, none when the
URL has no path or the segment is empty. -/
def specFinalPathSegment (u : List Char) : Option (List Char) :=
  match splitSlash (u.takeWhile (fun c => c != '?' && c != '#')) with
  | _scheme :: e :: _host :: pathParts =>
    if e = ([] : List Char) then
      match pathParts.getLast? with
      | some seg => if seg = ([] : List Char) then none else some seg
      | none => none
    else none
  | _ => none

/-- The HTTP response handed back by a successful reqwest send: the status
code is carried but never inspected by the program. -/
structure HttpResponse where
  status : Nat
  body : List Nat
deriving DecidableEq

/-- Oracle for the four fallible effects of one download_file call, in the
order the source performs them: send, File::create, response.bytes,
write_all. -/
structure DownloadOracle where
  send : Except (List Char) HttpResponse
  createFile : Except (List Char) Unit
  readBytes : Except (List Char) (List Nat)
  writeAll : Except (List Char) Unit

/-- download_file (main.rs lines 144-168): the failure of any effect returns
early as an error; note the response status is never checked, so a
non-success response flows through as a success whose body is written; on
full success the derived filename is returned. -/
def download_file (url : List Char) (o : DownloadOracle) : Except (List Char) (List Char) :=
  match o.send with
  | .error e => .error e
  | .ok _resp =>
    match o.createFile with
    | .error e => .error e
    | .ok _ =>
      match o.readBytes with
      | .error e => .error e
      | .ok _bytes =>
        match o.writeAll with
        | .error e => .error e
        | .ok _ => .ok (downloadFileName url)

/-- Whether a download task succeeds under its oracle. -/
def downloadSucceeds (url : List Char) (o : DownloadOracle) : Bool :=
  match download_file url o with
  | .ok _ => true
  | .error _ => false

/-- Body of one spawned task (main.rs lines 190-199): the match turns a
download error into None after logging, a success into Some filename. -/
def runTask (url : List Char) (o : DownloadOracle) : Option (List Char) :=
  match download_file url o with
  | .ok fn => some fn
  | .error _ => none

/-- download_files (main.rs lines 170-212) as a function of the per-URL
oracles: every link is spawned, join_all collects the task results in
spawn order (the outer some is the Ok of a join that did not panic), and
filter_map with ok-flatten keeps the successful filenames. -/
def download_files (oracles : List Char → DownloadOracle) (links : List (List Char)) :
    List (List Char) :=
  (links.map fun l => some (runTask l (oracles l))).filterMap fun r => r.bind id

/-- ProgressState (main.rs lines 21-35): total fixed at construction, the
atomic completed counter, and the mutex-protected last filename. -/
structure DownloadProgress where
  total : Nat
  current : Nat
  last_file : List Char
deriving DecidableEq

/-- DownloadProgress::new. -/
def DownloadProgress.new (total : Nat) : DownloadProgress := ⟨total, 0, []⟩

/-- DownloadProgress::increment (main.rs lines 37-44): one atomic
fetch_add of the counter and replacement of the last filename; the
progress printing is display-only. -/
def DownloadProgress.increment (p : DownloadProgress) (filename : List Char) :
    DownloadProgress :=
  { p with current := p.current + 1, last_file := filename }

/-- A linearization of concurrent increment calls: the atomic fetch_add
and the mutex make every interleaving equivalent to some sequential order
of the completion events, so the tracker is run by folding an event list. -/
def runCompletions (p : DownloadProgress) (files : List (List Char)) : DownloadProgress :=
  files.foldl (fun st f => st.increment f) p

/-- The progress events one task emits: increment is called exactly on
the success path of download_file (main.rs line 166), never on failure. -/
def taskEvents (url : List Char) (o : DownloadOracle) : List (List Char) :=
  match download_file url o with
  | .ok fn => [fn]
  | .error _ => []

/-- All progress events of a download_files run, in spawn order; a
concurrent schedule delivers some permutation of this list. -/
def downloadEvents (oracles : List Char → DownloadOracle) (links : List (List Char)) :
    List (List Char) :=
  (links.map fun l => taskEvents l (oracles l)).flatten

/-- The concurrency cap of download_files, main.rs line 177. -/
def max_concurrent : Nat := 50

/-- Lifecycle of one spawned download task with respect to the admission
gate: pending before the semaphore acquire, acquired while the permit is
held (the network request is only issued in this phase), finished after
the permit is dropped at task end. -/
inductive TaskPhase where
  | pending : TaskPhase
  | acquired : TaskPhase
  | finished : TaskPhase
deriving DecidableEq

/-- State of the spawned task set. -/
structure ExecState where
  tasks : List TaskPhase
deriving DecidableEq

/-- Whether a task currently holds a permit. -/
def isAcquiredPhase : TaskPhase → Bool
  | TaskPhase.acquired => true
  | _ => false

/-- Number of tasks holding a permit, hence with an outstanding request. -/
def countAcquired (s : ExecState) : Nat := s.tasks.countP isAcquiredPhase

/-- Step relation of the download executor (main.rs lines 180-202): a
pending task may acquire only while fewer than k permits are out (the
counting-semaphore guard), and an acquired task finishes, releasing its
permit, whether its download succeeded or failed. -/
inductive SemStep (k : Nat) : ExecState → ExecState → Prop where
  | acquire (s : ExecState) (i : Nat)
      (hi : s.tasks.get? i = some TaskPhase.pending)
      (hk : countAcquired s < k) :
      SemStep k s ⟨s.tasks.set i TaskPhase.acquired⟩
  | finish (s : ExecState) (i : Nat) (success : Bool)
      (hi : s.tasks.get? i = some TaskPhase.acquired) :
      SemStep k s ⟨s.tasks.set i TaskPhase.finished⟩

/-- Concrete document with no anchors at all: every selector parses and
matches nothing (a plain-text index page). -/
def docNoAnchors : String → Option (List (Option String)) := fun _ => some []

/-- Resolver oracle that fails every join; stands for a base-and-href pair
the url crate rejects. -/
def resolveAbort : String → Except Unit String := fun _ => .error ()

/-- Resolver oracle with standard join behavior against the base
https://x.test/ : absolute hrefs pass through, relative ones are joined. -/
def resolveSimple : String → Except Unit String := fun href =>
  if startsWithList href.toList "http".toList then .ok href
  else .ok ("https://x.test/" ++ href)

/-- Document whose container rule matches one anchor whose href the url
crate rejects (an invalid IPv6-looking authority that still contains the
gz marker). -/
def docBadHref : String → Option (List (Option String)) :=
  fun s => if s = "div.bdpLink a" then some [some "https://[bad].gz"] else some []

/-- Document whose container rule matches four anchors: two distinct data
files, one non-matching page link, and a duplicate of the first file. -/
def docTwoAnchors : String → Option (List (Option String)) :=
  fun s =>
    if s = "div.bdpLink a" then
      some [some "data1.tar.gz", some "data2.tar.gz", some "ignore.html",
            some "data1.tar.gz"]
    else some [some "other.gz"]

/-- Variant of docTwoAnchors whose lower-priority selectors match a
different extra anchor; used to show lower rules contribute nothing. -/
def docTwoAnchorsAlt : String → Option (List (Option String)) :=
  fun s =>
    if s = "div.bdpLink a" then
      some [some "data1.tar.gz", some "data2.tar.gz", some "ignore.html",
            some "data1.tar.gz"]
    else some [some "extra.gz", some "more.bz2"]

/-- A 1001-byte HTML text: 999 ASCII bytes followed by a two-byte UTF-8
character (LATIN SMALL LETTER E WITH ACUTE, bytes 195 169) straddling byte
offset 1000. -/
def htmlStraddle2 : List Nat := List.replicate 999 97 ++ [195, 169]

/-- A 1002-byte HTML text: 999 ASCII bytes followed by a three-byte UTF-8
character (EURO SIGN, bytes 226 130 172) straddling byte offset 1000. -/
def htmlStraddle3 : List Nat := List.replicate 999 98 ++ [226, 130, 172]

/-- Oracle of a download whose server answers 404: the send succeeds (the
transport only fails on network errors), and all filesystem effects
succeed, so the error page body gets written. -/
def okOracle404 : DownloadOracle :=
  ⟨.ok ⟨404, [60, 104, 116, 109, 108, 62]⟩, .ok (), .ok [60, 104, 116, 109, 108, 62], .ok ()⟩

/-- Oracle of a download that succeeds normally with status 200. -/
def okOracle200 : DownloadOracle :=
  ⟨.ok ⟨200, [1, 2, 3]⟩, .ok (), .ok [1, 2, 3], .ok ()⟩

/-- Oracle of a download whose network request fails. -/
def failOracleNet : DownloadOracle :=
  ⟨.error "connection reset".toList, .ok (), .ok [], .ok ()⟩

/-- Per-URL oracle map: one URL fails at the network layer, the rest
succeed. -/
def oraclesOneBad : List Char → DownloadOracle :=
  fun u => if u = "https://x.test/bad.tar.gz".toList then failOracleNet else okOracle200

theorem splitSlash_ne_nil (l : List Char) : splitSlash l ≠ [] := by
  cases l with
  | nil => simp [splitSlash]
  | cons c r =>
    simp only [splitSlash]
    split
    · simp
    · split
      · simp
      · simp

theorem splitSlash_no_slash {seg : List Char} (h : ('/' : Char) ∉ seg) :
    splitSlash seg = [seg] := by
  induction seg with
  | nil => rfl
  | cons c r ih =>
    have hc : ¬ (c = '/') := fun e => h (by simp [e])
    have hr : ('/' : Char) ∉ r := fun m => h (List.mem_cons_of_mem c m)
    simp only [splitSlash, if_neg hc, ih hr]

theorem splitSlash_cons_ne (c : Char) (l : List Char) (hc : ¬ c = '/') :
    splitSlash (c :: l) =
      match splitSlash l with
      | [] => [[c]]
      | p :: ps => (c :: p) :: ps := by
  simp only [splitSlash, if_neg hc]

theorem splitSlash_append_seg (pre : List Char) {seg : List Char}
    (h : ('/' : Char) ∉ seg) :
    splitSlash (pre ++ '/' :: seg) = splitSlash pre ++ [seg] := by
  induction pre with
  | nil => simp [splitSlash, splitSlash_no_slash h]
  | cons c r ih =>
    by_cases hc : c = '/'
    · subst hc
      show splitSlash ('/' :: (r ++ '/' :: seg)) = splitSlash ('/' :: r) ++ [seg]
      rw [show splitSlash ('/' :: (r ++ '/' :: seg)) = [] :: splitSlash (r ++ '/' :: seg) from rfl,
        show splitSlash ('/' :: r) = [] :: splitSlash r from rfl, ih]
      rfl
    · cases hsr : splitSlash r with
      | nil => exact absurd hsr (splitSlash_ne_nil r)
      | cons p ps =>
        rw [hsr] at ih
        show splitSlash (c :: (r ++ '/' :: seg)) = splitSlash (c :: r) ++ [seg]
        rw [splitSlash_cons_ne c _ hc, splitSlash_cons_ne c r hc, ih, hsr]
        rfl

theorem pathComponents_append_seg (pre : List Char) {seg : List Char}
    (h1 : ('/' : Char) ∉ seg) (h2 : seg ≠ []) (h3 : seg ≠ ['.']) :
    pathComponents (pre ++ '/' :: seg) = pathComponents pre ++ [seg] := by
  have hne : seg.isEmpty = false := by
    cases seg with
    | nil => exact absurd rfl h2
    | cons a as => rfl
  have hdot : (seg != ['.']) = true := bne_iff_ne.mpr h3
  unfold pathComponents
  rw [splitSlash_append_seg pre h1, List.filter_append]
  congr 1
  simp [List.filter_cons, hne, hdot]

/-- C8 counterexample: the extracted (filter-passing) URL
https x.test download with a trailing slash has no final path segment, so
the claim demands the placeholder filename, but the code derives the last
slash-separated component of the raw string, which is the word download. -/
theorem c8_filename_counterexample :
    isDataLink "https://x.test/download/" = true ∧
    specFinalPathSegment "https://x.test/download/".toList = none ∧
    downloadFileName "https://x.test/download/".toList ≠
      (specFinalPathSegment "https://x.test/download/".toList).getD unknownFile := by
  refine ⟨rfl, rfl, ?_⟩
  decide

/-- C8 amended: the output filename is the last non-empty, non-dot
slash-separated component of the full URL string, so for a URL of the
form prefix-slash-seg with seg free of slashes and not a dot component the
filename is seg (the final path segment whenever seg carries no query or
fragment text); the placeholder unknown_file is used exactly when no such
component exists or the path terminates in a double dot. -/
theorem c8_filename_last_component (pre seg url : List Char)
    (h1 : ('/' : Char) ∉ seg) (h2 : seg ≠ []) (h3 : seg ≠ ['.'])
    (h4 : seg ≠ ['.', '.']) (h5 : rustFileName url = none) :
    downloadFileName (pre ++ '/' :: seg) = seg ∧ downloadFileName url = unknownFile := by
  constructor
  · unfold downloadFileName rustFileName
    rw [pathComponents_append_seg pre h1 h2 h3, List.getLast?_concat]
    simp [h4]
  · simp [downloadFileName, h5]

/-- C8 witness: a normal archive URL gets its final segment as filename,
and the bare slash path gets the placeholder. -/
theorem c8_filename_last_component_witness :
    downloadFileName ("https://x.test".toList ++ '/' :: "data1.tar.gz".toList) =
      "data1.tar.gz".toList ∧
    downloadFileName ['/'] = unknownFile :=
  c8_filename_last_component "https://x.test".toList "data1.tar.gz".toList ['/']
    (by decide) (by decide) (by decide) (by decide) (by decide)

theorem pe_skip (resolve : String → Except Unit String) (rest : List (Option String))
    (links : List String) (found : Nat) :
    ∀ elems : List (Option String),
      (∀ e ∈ elems, e = none ∨ ∃ g, e = some g ∧ isDataLink g = false) →
      processElements resolve (elems ++ rest) links found =
        processElements resolve rest links found := by
  intro elems
  induction elems with
  | nil => intro _; rfl
  | cons e es ih =>
    intro hskip
    have htail : ∀ x ∈ es, x = none ∨ ∃ g, x = some g ∧ isDataLink g = false :=
      fun x hx => hskip x (List.mem_cons_of_mem e hx)
    rcases hskip e (List.mem_cons_self e es) with he | ⟨g, hg, hgf⟩
    · subst he
      simp only [List.cons_append, processElements]
      exact ih htail
    · subst hg
      simp only [List.cons_append, processElements, hgf]
      simp only [Bool.false_eq_true, if_false]
      exact ih htail

theorem pe_error (resolve : String → Except Unit String) (h : String)
    (rest : List (Option String)) (links : List String) (found : Nat)
    (hh : isDataLink h = true) (hres : resolve h = Except.error ()) :
    processElements resolve (some h :: rest) links found = Except.error () := by
  simp [processElements, hh, hres]

theorem pe_length (resolve : String → Except Unit String) :
    ∀ (elems : List (Option String)) (links : List String) (found : Nat)
      (L : List String) (g : Nat),
      processElements resolve elems links found = Except.ok (L, g) →
      L.length + found = links.length + g := by
  intro elems
  induction elems with
  | nil =>
    intro links found L g hpe
    simp only [processElements, Except.ok.injEq, Prod.mk.injEq] at hpe
    obtain ⟨h1, h2⟩ := hpe
    subst h1; subst h2; rfl
  | cons e es ih =>
    intro links found L g hpe
    cases e with
    | none =>
      simp only [processElements] at hpe
      exact ih links found L g hpe
    | some href =>
      simp only [processElements] at hpe
      cases hd : isDataLink href with
      | false => simp only [hd, Bool.false_eq_true, if_false] at hpe; exact ih _ _ _ _ hpe
      | true =>
        simp only [hd, if_true] at hpe
        cases hr : resolve href with
        | error e' => rw [hr] at hpe; exact absurd hpe (by simp)
        | ok u =>
          rw [hr] at hpe
          cases hc : links.contains u with
          | true => simp only [hc, if_true] at hpe; exact ih _ _ _ _ hpe
          | false =>
            simp only [hc, Bool.false_eq_true, if_false] at hpe
            have := ih _ _ _ _ hpe
            rw [List.length_append] at this
            simp at this
            omega

theorem pe_nodup (resolve : String → Except Unit String) :
    ∀ (elems : List (Option String)) (links : List String) (found : Nat)
      (L : List String) (g : Nat),
      links.Nodup → processElements resolve elems links found = Except.ok (L, g) →
      L.Nodup := by
  intro elems
  induction elems with
  | nil =>
    intro links found L g hnd hpe
    simp only [processElements, Except.ok.injEq, Prod.mk.injEq] at hpe
    obtain ⟨h1, _⟩ := hpe
    subst h1; exact hnd
  | cons e es ih =>
    intro links found L g hnd hpe
    cases e with
    | none =>
      simp only [processElements] at hpe
      exact ih links found L g hnd hpe
    | some href =>
      simp only [processElements] at hpe
      cases hd : isDataLink href with
      | false =>
        simp only [hd, Bool.false_eq_true, if_false] at hpe
        exact ih _ _ _ _ hnd hpe
      | true =>
        simp only [hd, if_true] at hpe
        cases hr : resolve href with
        | error e' => rw [hr] at hpe; exact absurd hpe (by simp)
        | ok u =>
          rw [hr] at hpe
          cases hc : links.contains u with
          | true => simp only [hc, if_true] at hpe; exact ih _ _ _ _ hnd hpe
          | false =>
            simp only [hc, Bool.false_eq_true, if_false] at hpe
            have hu : u ∉ links := by
              intro hm
              have : links.contains u = true := by
                simpa using List.elem_eq_true_of_mem hm
              rw [this] at hc
              exact absurd hc (by simp)
            have hnd2 : (links ++ [u]).Nodup := by
              rw [List.nodup_append]
              refine ⟨hnd, List.nodup_singleton u, ?_⟩
              intro a ha hb
              simp only [List.mem_singleton] at hb
              subst hb
              exact hu ha
            exact ih _ _ _ _ hnd2 hpe

theorem dedupAppend_nil (acc : List String) : dedupAppend acc [] = acc := rfl

theorem dedupAppend_cons (acc : List String) (u : String) (urls : List String) :
    dedupAppend acc (u :: urls) =
      dedupAppend (if acc.contains u then acc else acc ++ [u]) urls := rfl

theorem dedupAppend_length_le (urls : List String) :
    ∀ acc : List String, acc.length ≤ (dedupAppend acc urls).length := by
  induction urls with
  | nil => intro acc; rw [dedupAppend_nil]
  | cons u us ih =>
    intro acc
    rw [dedupAppend_cons]
    cases hc : acc.contains u with
    | true => simp only [hc, if_true]; exact ih acc
    | false =>
      simp only [hc, Bool.false_eq_true, if_false]
      calc acc.length ≤ (acc ++ [u]).length := by simp
        _ ≤ (dedupAppend (acc ++ [u]) us).length := ih (acc ++ [u])

theorem pe_dedup (resolve : String → Except Unit String) :
    ∀ (elems : List (Option String)) (urls : List String),
      survivorsResolved resolve elems = Except.ok urls →
      ∀ (links : List String) (found : Nat),
        processElements resolve elems links found =
          Except.ok (dedupAppend links urls,
            found + ((dedupAppend links urls).length - links.length)) := by
  intro elems
  induction elems with
  | nil =>
    intro urls hs links found
    simp only [survivorsResolved, Except.ok.injEq] at hs
    subst hs
    simp [processElements, dedupAppend_nil]
  | cons e es ih =>
    intro urls hs links found
    cases e with
    | none =>
      simp only [survivorsResolved] at hs
      simp only [processElements]
      exact ih urls hs links found
    | some href =>
      simp only [survivorsResolved] at hs
      simp only [processElements]
      cases hd : isDataLink href with
      | false =>
        simp only [hd, Bool.false_eq_true, if_false] at hs ⊢
        exact ih urls hs links found
      | true =>
        simp only [hd, if_true] at hs ⊢
        cases hr : resolve href with
        | error e' => rw [hr] at hs; exact absurd hs (by simp)
        | ok u =>
          rw [hr] at hs
          cases hs2 : survivorsResolved resolve es with
          | error e' => rw [hs2] at hs; exact absurd hs (by simp)
          | ok urls' =>
            rw [hs2] at hs
            simp only [Except.ok.injEq] at hs
            subst hs
            cases hc : links.contains u with
            | true =>
              simp only [hc, if_true]
              have heq : dedupAppend links (u :: urls') = dedupAppend links urls' := by
                rw [dedupAppend_cons]
                simp only [hc, if_true]
              rw [ih urls' hs2 links found, heq]
            | false =>
              simp only [hc, Bool.false_eq_true, if_false]
              have heq : dedupAppend links (u :: urls') = dedupAppend (links ++ [u]) urls' := by
                rw [dedupAppend_cons]
                simp only [hc, Bool.false_eq_true, if_false]
              rw [ih urls' hs2 (links ++ [u]) (found + 1), heq]
              have hle := dedupAppend_length_le urls' (links ++ [u])
              have harith : found + 1 +
                  ((dedupAppend (links ++ [u]) urls').length - (links ++ [u]).length) =
                  found + ((dedupAppend (links ++ [u]) urls').length - links.length) := by
                rw [List.length_append] at hle ⊢
                simp only [List.length_cons, List.length_nil] at hle ⊢
                omega
              rw [harith]

theorem fetchLoop_pre (doc : String → Option (List (Option String)))
    (resolve : String → Except Unit String) :
    ∀ (pre rest : List String),
      (∀ s ∈ pre, doc s = none ∨ ∃ es, doc s = some es ∧
        processElements resolve es [] 0 = Except.ok ([], 0)) →
      fetchLoop doc resolve (pre ++ rest) [] = fetchLoop doc resolve rest [] := by
  intro pre
  induction pre with
  | nil => intro rest _; rfl
  | cons s ss ih =>
    intro rest hpre
    have htail : ∀ x ∈ ss, doc x = none ∨ ∃ es, doc x = some es ∧
        processElements resolve es [] 0 = Except.ok ([], 0) :=
      fun x hx => hpre x (List.mem_cons_of_mem s hx)
    rcases hpre s (List.mem_cons_self s ss) with hnone | ⟨es, hes, hpe⟩
    · simp only [List.cons_append, fetchLoop, hnone]
      exact ih rest htail
    · simp only [List.cons_append, fetchLoop, hes, hpe]
      rw [if_neg (Nat.lt_irrefl 0)]
      exact ih rest htail

theorem fetchLoop_win (doc : String → Option (List (Option String)))
    (resolve : String → Except Unit String) (sel : String) (rest : List String)
    (elems : List (Option String)) (L : List String) (f : Nat)
    (hdoc : doc sel = some elems)
    (hpe : processElements resolve elems [] 0 = Except.ok (L, f)) (hf : 0 < f) :
    fetchLoop doc resolve (sel :: rest) [] = Except.ok L := by
  simp only [fetchLoop, hdoc, hpe, if_pos hf]

theorem fetchLoop_err (doc : String → Option (List (Option String)))
    (resolve : String → Except Unit String) (sel : String) (rest : List String)
    (elems : List (Option String)) (hdoc : doc sel = some elems)
    (hpe : processElements resolve elems [] 0 = Except.error ()) :
    fetchLoop doc resolve (sel :: rest) [] = Except.error () := by
  simp only [fetchLoop, hdoc, hpe]

theorem fetchLoop_nodup (doc : String → Option (List (Option String)))
    (resolve : String → Except Unit String) :
    ∀ (sels : List String) (links L : List String),
      links.Nodup → fetchLoop doc resolve sels links = Except.ok L → L.Nodup := by
  intro sels
  induction sels with
  | nil =>
    intro links L hnd hh
    simp only [fetchLoop, Except.ok.injEq] at hh
    subst hh; exact hnd
  | cons s ss ih =>
    intro links L hnd hh
    cases hd : doc s with
    | none =>
      simp only [fetchLoop, hd] at hh
      exact ih links L hnd hh
    | some es =>
      simp only [fetchLoop, hd] at hh
      cases hpe : processElements resolve es links 0 with
      | error e => simp only [hpe] at hh; exact absurd hh (by simp)
      | ok p =>
        obtain ⟨links2, found⟩ := p
        simp only [hpe] at hh
        have hnd2 := pe_nodup resolve es links 0 links2 found hnd hpe
        by_cases hfound : 0 < found
        · rw [if_pos hfound] at hh
          simp only [Except.ok.injEq] at hh
          subst hh; exact hnd2
        · rw [if_neg hfound] at hh
          exact ih links2 L hnd2 hh

theorem fetch_links_ok (doc : String → Option (List (Option String)))
    (resolve : String → Except Unit String) (html : List Nat) (L : List String)
    (hh : fetch_download_links doc resolve html = FetchResult.links L) :
    fetchLoop doc resolve selectors [] = Except.ok L := by
  unfold fetch_download_links at hh
  cases hl : fetchLoop doc resolve selectors [] with
  | error e => simp only [hl] at hh; exact absurd hh (by simp)
  | ok ls =>
    simp only [hl] at hh
    by_cases he : ls.isEmpty
    · rw [if_pos he] at hh
      by_cases hb : isCharBoundary html (min 1000 html.length) = true
      · rw [if_pos hb] at hh
        simp only [FetchResult.links.injEq] at hh
        rw [hh]
      · rw [if_neg hb] at hh
        exact absurd hh (by simp)
    · rw [if_neg he] at hh
      simp only [FetchResult.links.injEq] at hh
      rw [hh]

/-- C1 counterexample: a single anchor whose href passes the content
filter but whose URL join fails (a malformed authority that still carries
the gz marker, which the url crate rejects) makes the whole extraction
pass return an error, contradicting the per-candidate-skip claim. -/
theorem c1_url_join_failure_counterexample :
    isDataLink "https://[bad].gz" = true ∧
    fetch_download_links docBadHref resolveAbort [] = FetchResult.errored :=
  ⟨rfl, rfl⟩

/-- C1 amended: candidates without an href or failing the
content-likelihood filter are skipped per candidate, but a surviving
candidate whose URL join fails aborts the entire extraction pass with an
error, because the question-mark operator on resolve_url returns from
fetch_download_links. -/
theorem c1_url_join_failure_aborts (doc : String → Option (List (Option String)))
    (resolve : String → Except Unit String) (pre post : List String) (sel : String)
    (elems₁ elems₂ : List (Option String)) (h : String) (html : List Nat)
    (hsels : selectors = pre ++ sel :: post)
    (hpre : ∀ s ∈ pre, doc s = none ∨ ∃ es, doc s = some es ∧
      processElements resolve es [] 0 = Except.ok ([], 0))
    (hdoc : doc sel = some (elems₁ ++ some h :: elems₂))
    (hskip : ∀ e ∈ elems₁, e = none ∨ ∃ g, e = some g ∧ isDataLink g = false)
    (hh : isDataLink h = true)
    (hres : resolve h = Except.error ()) :
    fetch_download_links doc resolve html = FetchResult.errored := by
  have hpe : processElements resolve (elems₁ ++ some h :: elems₂) [] 0 =
      Except.error () := by
    rw [pe_skip resolve (some h :: elems₂) [] 0 elems₁ hskip]
    exact pe_error resolve h elems₂ [] 0 hh hres
  have hloop : fetchLoop doc resolve selectors [] = Except.error () := by
    rw [hsels, fetchLoop_pre doc resolve pre (sel :: post) hpre]
    exact fetchLoop_err doc resolve sel post _ hdoc hpe
  unfold fetch_download_links
  rw [hloop]

/-- C1 amended witness: the container rule matches one filter-passing
anchor whose join fails, and extraction errors. -/
theorem c1_url_join_failure_aborts_witness :
    isDataLink "https://[bad].gz" = true ∧
    resolveAbort "https://[bad].gz" = Except.error () ∧
    fetch_download_links docBadHref resolveAbort htmlStraddle2 = FetchResult.errored :=
  ⟨rfl, rfl,
    c1_url_join_failure_aborts docBadHref resolveAbort [] selectors.tail "div.bdpLink a"
      [] [] "https://[bad].gz" htmlStraddle2 rfl (by simp) rfl (by simp) rfl rfl⟩

/-- C3: when every selector before sel in the priority list matches
nothing usable and the pass of sel itself from the empty accumulator pushes at
least one link, extraction returns exactly the links of that pass; moreover the
result is the same for every document that agrees with this one on the
earlier selectors and on sel, so lower-priority rules contribute
nothing. -/
theorem c3_first_rule_wins (doc : String → Option (List (Option String)))
    (resolve : String → Except Unit String) (pre post : List String) (sel : String)
    (elems : List (Option String)) (L : List String) (f : Nat) (html : List Nat)
    (hsels : selectors = pre ++ sel :: post)
    (hpre : ∀ s ∈ pre, doc s = none ∨ ∃ es, doc s = some es ∧
      processElements resolve es [] 0 = Except.ok ([], 0))
    (hsel : doc sel = some elems)
    (hpe : processElements resolve elems [] 0 = Except.ok (L, f))
    (hf : 0 < f) :
    fetch_download_links doc resolve html = FetchResult.links L ∧
    ∀ doc₂ : String → Option (List (Option String)),
      (∀ s ∈ pre, doc₂ s = doc s) → doc₂ sel = doc sel →
      fetch_download_links doc₂ resolve html = FetchResult.links L := by
  have hL : L.isEmpty = false := by
    have hlen := pe_length resolve elems [] 0 L f hpe
    simp only [List.length_nil, Nat.add_zero, Nat.zero_add] at hlen
    cases L with
    | nil => simp at hlen; omega
    | cons a as => rfl
  have key : ∀ d : String → Option (List (Option String)),
      (∀ s ∈ pre, d s = none ∨ ∃ es, d s = some es ∧
        processElements resolve es [] 0 = Except.ok ([], 0)) →
      d sel = some elems →
      fetch_download_links d resolve html = FetchResult.links L := by
    intro d hd hdsel
    have hloop : fetchLoop d resolve selectors [] = Except.ok L := by
      rw [hsels, fetchLoop_pre d resolve pre (sel :: post) hd]
      exact fetchLoop_win d resolve sel post elems L f hdsel hpe hf
    unfold fetch_download_links
    rw [hloop]
    simp [hL]
  refine ⟨key doc hpre hsel, ?_⟩
  intro doc₂ hagree hsel2
  refine key doc₂ (fun s hs => ?_) (by rw [hsel2, hsel])
  rw [hagree s hs]
  exact hpre s hs

/-- C3 witness: the container rule finds two distinct archives (plus a
filtered page link and a duplicate); the result stands even for the
variant document whose lower-priority selectors match extra anchors. -/
theorem c3_first_rule_wins_witness :
    processElements resolveSimple [some "data1.tar.gz", some "data2.tar.gz",
        some "ignore.html", some "data1.tar.gz"] [] 0 =
      Except.ok (["https://x.test/data1.tar.gz", "https://x.test/data2.tar.gz"], 2) ∧
    fetch_download_links docTwoAnchorsAlt resolveSimple [] =
      FetchResult.links ["https://x.test/data1.tar.gz", "https://x.test/data2.tar.gz"] :=
  ⟨rfl,
    (c3_first_rule_wins docTwoAnchors resolveSimple [] selectors.tail "div.bdpLink a"
      [some "data1.tar.gz", some "data2.tar.gz", some "ignore.html", some "data1.tar.gz"]
      ["https://x.test/data1.tar.gz", "https://x.test/data2.tar.gz"] 2 [] rfl
      (by simp) rfl rfl (by decide)).2 docTwoAnchorsAlt (by simp) rfl⟩

/-- C4: any link list returned by extraction has no duplicates, and the
per-rule accumulation of the code coincides with the reference
semantics: fold the resolved survivors in order, keep only first
occurrences by exact string equality, preserve insertion order, and count
exactly the newly inserted ones. -/
theorem c4_dedup_first_occurrence (doc : String → Option (List (Option String)))
    (resolve : String → Except Unit String) (html : List Nat) (L : List String)
    (elems : List (Option String)) (urls links0 : List String)
    (h1 : fetch_download_links doc resolve html = FetchResult.links L)
    (h2 : survivorsResolved resolve elems = Except.ok urls)
    (h3 : links0.Nodup) :
    L.Nodup ∧
    processElements resolve elems links0 0 =
      Except.ok (dedupAppend links0 urls,
        (dedupAppend links0 urls).length - links0.length) ∧
    (dedupAppend links0 urls).Nodup := by
  refine ⟨?_, ?_, ?_⟩
  · exact fetchLoop_nodup doc resolve selectors [] L List.nodup_nil
      (fetch_links_ok doc resolve html L h1)
  · have hpe := pe_dedup resolve elems urls h2 links0 0
    simpa using hpe
  · have hpe := pe_dedup resolve elems urls h2 links0 0
    exact pe_nodup resolve elems links0 0 _ _ h3 hpe

/-- C4 witness: a duplicated anchor collapses to one entry at its first
position, against a non-empty already-resolved accumulator. -/
theorem c4_dedup_first_occurrence_witness :
    (["https://x.test/old.gz"] : List String).Nodup ∧
    ((["https://x.test/data1.tar.gz", "https://x.test/data2.tar.gz"] : List String).Nodup ∧
      processElements resolveSimple [some "data1.tar.gz", some "data1.tar.gz"]
          ["https://x.test/old.gz"] 0 =
        Except.ok (dedupAppend ["https://x.test/old.gz"]
            ["https://x.test/data1.tar.gz", "https://x.test/data1.tar.gz"],
          (dedupAppend ["https://x.test/old.gz"]
            ["https://x.test/data1.tar.gz", "https://x.test/data1.tar.gz"]).length -
            (["https://x.test/old.gz"] : List String).length) ∧
      (dedupAppend ["https://x.test/old.gz"]
        ["https://x.test/data1.tar.gz", "https://x.test/data1.tar.gz"]).Nodup) :=
  ⟨by decide,
    c4_dedup_first_occurrence docTwoAnchors resolveSimple []
      ["https://x.test/data1.tar.gz", "https://x.test/data2.tar.gz"]
      [some "data1.tar.gz", some "data1.tar.gz"]
      ["https://x.test/data1.tar.gz", "https://x.test/data1.tar.gz"]
      ["https://x.test/old.gz"] rfl rfl (by decide)⟩

/-- C5: with no anchors on the page the selector loop yields the empty
list and, when the preview slice offset is a character boundary (here the
HTML is empty), extraction returns the empty sequence, which the driver
turns into the non-error no-links terminal state; but on a no-anchor page
of 1001 bytes whose byte 1000 sits inside a two-byte character the same
code path panics on the byte slice instead of returning the empty
sequence. -/
theorem c5_empty_is_nonerror_but_preview_can_panic :
    fetch_download_links docNoAnchors resolveAbort [] = FetchResult.links [] ∧
    main_drive (fetch_download_links docNoAnchors resolveAbort []) [] =
      RunOutcome.emptyNoLinks ∧
    fetch_download_links docNoAnchors resolveAbort htmlStraddle2 =
      FetchResult.panicked :=
  ⟨rfl, rfl, rfl⟩

/-- C9: byte offset 1000 of the 1002-byte page falls inside a three-byte
character, so it is not a character boundary and the debug preview slice
of fetch_download_links panics rather than returning the empty result. -/
theorem c9_preview_slice_panics :
    isCharBoundary htmlStraddle3 (min 1000 htmlStraddle3.length) = false ∧
    fetch_download_links docNoAnchors resolveSimple htmlStraddle3 =
      FetchResult.panicked :=
  ⟨rfl, rfl⟩

theorem download_file_ok_name (url : List Char) (o : DownloadOracle) (fn : List Char)
    (hh : download_file url o = Except.ok fn) : fn = downloadFileName url := by
  unfold download_file at hh
  split at hh
  · exact absurd hh (by simp)
  · split at hh
    · exact absurd hh (by simp)
    · split at hh
      · exact absurd hh (by simp)
      · split at hh
        · exact absurd hh (by simp)
        · simp only [Except.ok.injEq] at hh
          exact hh.symm

theorem download_files_cons (oracles : List Char → DownloadOracle)
    (l : List Char) (rest : List (List Char)) :
    download_files oracles (l :: rest) =
      match runTask l (oracles l) with
      | some fn => fn :: download_files oracles rest
      | none => download_files oracles rest := by
  cases hr : runTask l (oracles l) with
  | none => simp [download_files, List.filterMap_cons, hr]
  | some fn => simp [download_files, List.filterMap_cons, hr]

theorem download_files_order (oracles : List Char → DownloadOracle) :
    ∀ links : List (List Char),
      download_files oracles links =
        (links.filter fun l => downloadSucceeds l (oracles l)).map
          fun l => downloadFileName l := by
  intro links
  induction links with
  | nil => rfl
  | cons l rest ih =>
    rw [download_files_cons]
    cases hd : download_file l (oracles l) with
    | ok fn =>
      have hfn := download_file_ok_name l (oracles l) fn hd
      have hsucc : downloadSucceeds l (oracles l) = true := by
        simp [downloadSucceeds, hd]
      have hrt : runTask l (oracles l) = some fn := by simp [runTask, hd]
      rw [hrt, List.filter_cons, if_pos hsucc, List.map_cons, ← ih, hfn]
    | error e =>
      have hsucc : downloadSucceeds l (oracles l) = false := by
        simp [downloadSucceeds, hd]
      have hrt : runTask l (oracles l) = none := by simp [runTask, hd]
      rw [hrt, List.filter_cons]
      simp only [hsucc, Bool.false_eq_true, if_false]
      exact ih

theorem download_files_length (oracles : List Char → DownloadOracle)
    (links : List (List Char)) :
    (download_files oracles links).length =
      links.countP fun l => downloadSucceeds l (oracles l) := by
  rw [download_files_order, List.length_map, ← List.countP_eq_length_filter]

theorem download_files_removal (oracles : List Char → DownloadOracle)
    (xs ys : List (List Char)) (bad e : List Char)
    (hbad : download_file bad (oracles bad) = Except.error e) :
    download_files oracles (xs ++ bad :: ys) = download_files oracles (xs ++ ys) := by
  have hsucc : downloadSucceeds bad (oracles bad) = false := by
    simp [downloadSucceeds, hbad]
  rw [download_files_order, download_files_order, List.filter_append,
    List.filter_append, List.filter_cons]
  simp [hsucc]

/-- C2 counterexample: a download whose server responds 404 (a non-success
response) is counted as a success by download_files, because send only
fails on transport errors and the code never checks the status; the claim
demanded it be recorded as a failure and excluded from the tally. -/
theorem c2_nonsuccess_counted_counterexample :
    okOracle404.send = Except.ok ⟨404, [60, 104, 116, 109, 108, 62]⟩ ∧
    download_files (fun _ => okOracle404) ["https://x.test/missing.tar.gz".toList] =
      ["missing.tar.gz".toList] ∧
    download_files (fun _ => okOracle404) ["https://x.test/missing.tar.gz".toList] ≠ [] := by
  refine ⟨rfl, rfl, ?_⟩
  decide

/-- C2 amended: a download failing at the network, file-create, body-read
or file-write step is excluded from the returned successes and its
presence in the link list does not change the outcome of the other
downloads; the success tally is exactly the number of links whose download
succeeds; and a response of any HTTP status whose transport and file
effects succeed is counted as a success with its derived filename (the
status is never consulted). -/
theorem c2_per_item_isolation (oracles : List Char → DownloadOracle)
    (xs ys : List (List Char)) (bad e : List Char)
    (hbad : download_file bad (oracles bad) = Except.error e) :
    download_files oracles (xs ++ bad :: ys) = download_files oracles (xs ++ ys) ∧
    (∀ links : List (List Char),
      (download_files oracles links).length =
        links.countP fun l => downloadSucceeds l (oracles l)) ∧
    (∀ (url : List Char) (resp : HttpResponse) (body : List Nat),
      download_file url ⟨Except.ok resp, Except.ok (), Except.ok body, Except.ok ()⟩ =
        Except.ok (downloadFileName url)) :=
  ⟨download_files_removal oracles xs ys bad e hbad,
   fun links => download_files_length oracles links,
   fun _ _ _ => rfl⟩

/-- C2 witness: with one network-failing URL among three, removing it
leaves the outcomes of the other downloads unchanged. -/
theorem c2_per_item_isolation_witness :
    download_file "https://x.test/bad.tar.gz".toList
        (oraclesOneBad "https://x.test/bad.tar.gz".toList) =
      Except.error "connection reset".toList ∧
    download_files oraclesOneBad (["https://x.test/a.gz".toList] ++
        "https://x.test/bad.tar.gz".toList :: ["https://x.test/c.gz".toList]) =
      download_files oraclesOneBad (["https://x.test/a.gz".toList] ++
        ["https://x.test/c.gz".toList]) :=
  ⟨rfl,
    (c2_per_item_isolation oraclesOneBad ["https://x.test/a.gz".toList]
      ["https://x.test/c.gz".toList] "https://x.test/bad.tar.gz".toList
      "connection reset".toList rfl).1⟩

/-- C10: the successes returned by download_files are exactly the
downloads that succeed, kept in the input order of their URLs (join_all
collects the spawned tasks in spawn order and the filter drops failures),
each carrying its derived filename. -/
theorem c10_success_order (oracles : List Char → DownloadOracle)
    (links : List (List Char)) :
    download_files oracles links =
      (links.filter fun l => downloadSucceeds l (oracles l)).map
        fun l => downloadFileName l :=
  download_files_order oracles links

theorem runCompletions_cons (p : DownloadProgress) (f : List Char)
    (fs : List (List Char)) :
    runCompletions p (f :: fs) = runCompletions (p.increment f) fs := rfl

theorem runCompletions_total (fs : List (List Char)) :
    ∀ p : DownloadProgress, (runCompletions p fs).total = p.total := by
  induction fs with
  | nil => intro p; rfl
  | cons f fs ih =>
    intro p
    rw [runCompletions_cons, ih]
    rfl

theorem runCompletions_current (fs : List (List Char)) :
    ∀ p : DownloadProgress, (runCompletions p fs).current = p.current + fs.length := by
  induction fs with
  | nil => intro p; rfl
  | cons f fs ih =>
    intro p
    rw [runCompletions_cons, ih]
    simp only [DownloadProgress.increment, List.length_cons]
    omega

theorem downloadEvents_cons (oracles : List Char → DownloadOracle)
    (l : List Char) (rest : List (List Char)) :
    downloadEvents oracles (l :: rest) =
      taskEvents l (oracles l) ++ downloadEvents oracles rest := by
  simp [downloadEvents]

theorem downloadEvents_length (oracles : List Char → DownloadOracle) :
    ∀ links : List (List Char),
      (downloadEvents oracles links).length =
        links.countP fun l => downloadSucceeds l (oracles l) := by
  intro links
  induction links with
  | nil => rfl
  | cons l rest ih =>
    rw [downloadEvents_cons, List.length_append, ih, List.countP_cons]
    cases hd : download_file l (oracles l) with
    | ok fn =>
      have hsucc : downloadSucceeds l (oracles l) = true := by
        simp [downloadSucceeds, hd]
      simp [taskEvents, hd, hsucc]
      omega
    | error e =>
      have hsucc : downloadSucceeds l (oracles l) = false := by
        simp [downloadSucceeds, hd]
      simp [taskEvents, hd, hsucc]

/-- C6: for any concurrent schedule of a download_files run, modeled as an
arbitrary permutation of the per-task progress events (increment fires
exactly once per successful download, never on failure), the tracker keeps
its construction-time total, its completed counter ends at exactly the
number of successful downloads, never exceeds the total, and is
monotonically non-decreasing along the run. -/
theorem c6_progress_counter (oracles : List Char → DownloadOracle)
    (links perm : List (List Char))
    (hperm : perm.Perm (downloadEvents oracles links)) :
    (runCompletions (DownloadProgress.new links.length) perm).total = links.length ∧
    (runCompletions (DownloadProgress.new links.length) perm).current =
      links.countP (fun l => downloadSucceeds l (oracles l)) ∧
    (runCompletions (DownloadProgress.new links.length) perm).current ≤ links.length ∧
    (∀ p s : List (List Char), perm = p ++ s →
      (runCompletions (DownloadProgress.new links.length) p).current ≤
        (runCompletions (DownloadProgress.new links.length) perm).current) := by
  have hlen : perm.length = links.countP fun l => downloadSucceeds l (oracles l) := by
    rw [hperm.length_eq, downloadEvents_length]
  refine ⟨runCompletions_total perm _, ?_, ?_, ?_⟩
  · rw [runCompletions_current]
    simpa [DownloadProgress.new] using hlen
  · rw [runCompletions_current]
    simp only [DownloadProgress.new, Nat.zero_add]
    rw [hlen]
    exact List.countP_le_length _
  · intro p s hps
    rw [runCompletions_current, runCompletions_current]
    have hple : p.length ≤ perm.length := by
      rw [hps, List.length_append]
      omega
    omega

/-- C6 witness: two tasks, one success and one network failure, delivered
in schedule order: the counter ends at one. -/
theorem c6_progress_counter_witness :
    (downloadEvents oraclesOneBad
        ["https://x.test/a.gz".toList, "https://x.test/bad.tar.gz".toList]).Perm
      (downloadEvents oraclesOneBad
        ["https://x.test/a.gz".toList, "https://x.test/bad.tar.gz".toList]) ∧
    (runCompletions (DownloadProgress.new 2)
        (downloadEvents oraclesOneBad
          ["https://x.test/a.gz".toList, "https://x.test/bad.tar.gz".toList])).current = 1 := by
  refine ⟨List.Perm.refl _, ?_⟩
  have hc := (c6_progress_counter oraclesOneBad
      ["https://x.test/a.gz".toList, "https://x.test/bad.tar.gz".toList] _
      (List.Perm.refl _)).2.1
  rw [show (["https://x.test/a.gz".toList,
      "https://x.test/bad.tar.gz".toList] : List (List Char)).length = 2 from rfl] at hc
  rw [hc]
  rfl

theorem countAcquired_acquire (s : ExecState) (i : Nat)
    (hi : s.tasks.get? i = some TaskPhase.pending) :
    countAcquired ⟨s.tasks.set i TaskPhase.acquired⟩ = countAcquired s + 1 := by
  obtain ⟨hlen, hget⟩ := List.get?_eq_some.mp hi
  have hb : s.tasks[i] = TaskPhase.pending := hget
  unfold countAcquired
  rw [List.countP_set isAcquiredPhase s.tasks i TaskPhase.acquired hlen, hb]
  simp [isAcquiredPhase]

theorem countAcquired_finish (s : ExecState) (i : Nat)
    (hi : s.tasks.get? i = some TaskPhase.acquired) :
    countAcquired ⟨s.tasks.set i TaskPhase.finished⟩ ≤ countAcquired s := by
  obtain ⟨hlen, hget⟩ := List.get?_eq_some.mp hi
  have hb : s.tasks[i] = TaskPhase.acquired := hget
  unfold countAcquired
  rw [List.countP_set isAcquiredPhase s.tasks i TaskPhase.finished hlen, hb]
  simp [isAcquiredPhase]

/-- C7: starting from n spawned pending tasks with the cap of fifty (and
more tasks than permits), every state reachable through semaphore acquires
and unconditional releases has at most fifty tasks holding a permit, that
is, at most fifty downloads with outstanding network requests. -/
theorem c7_semaphore_bound (n : Nat) (s : ExecState) (hn : max_concurrent < n)
    (hreach : Relation.ReflTransGen (SemStep max_concurrent)
      ⟨List.replicate n TaskPhase.pending⟩ s) :
    countAcquired s ≤ max_concurrent := by
  induction hreach with
  | refl =>
    have hz : countAcquired ⟨List.replicate n TaskPhase.pending⟩ = 0 := by
      unfold countAcquired
      rw [List.countP_eq_zero]
      intro a ha
      rw [List.eq_of_mem_replicate ha]
      simp [isAcquiredPhase]
    rw [hz]
    exact Nat.zero_le _
  | @tail b c hsteps hstep ih =>
    cases hstep with
    | acquire i hi hk =>
      rw [countAcquired_acquire b i hi]
      omega
    | finish i success hi =>
      exact le_trans (countAcquired_finish b i hi) ih

/-- C7 witness: with fifty-one pending tasks, the state after one acquire
step is reachable and holds at most fifty permits. -/
theorem c7_semaphore_bound_witness :
    max_concurrent < 51 ∧
    countAcquired ⟨(List.replicate 51 TaskPhase.pending).set 0 TaskPhase.acquired⟩ ≤
      max_concurrent :=
  ⟨by decide,
    c7_semaphore_bound 51
      ⟨(List.replicate 51 TaskPhase.pending).set 0 TaskPhase.acquired⟩ (by decide)
      (Relation.ReflTransGen.single
        (SemStep.acquire ⟨List.replicate 51 TaskPhase.pending⟩ 0 rfl (by decide)))⟩
